import Mathlib

/-!
Verification of the `wave` CPU-side 2D rasterizer.

This file is a shallow embedding of the core of the crate: the framebuffer
(`Stage` in `src/stage.rs`), the color/style model (`src/style.rs`), the line
rasterizer and its Cohen–Sutherland clipper (`src/shapes/lines.rs`), the
scanline triangle rasterizer (`src/shapes/triangles.rs`), the circle radius
derivation (`src/shapes/circles.rs`) and the generic path renderer
(`src/path.rs`).

Conventions of the embedding:
- `usize` values become `Nat`, `isize`/`i64` values become `Int`.  Rust's
  truncating `i64` division is `Int.tdiv`; the arithmetic right shift `>> 16`
  is floor division `Int.fdiv · 65536`.
- a fallible operation becomes `Option`; a `panic!`/failed `assert!` becomes
  `none` at the call that would panic.
- `[u8; 4]` pixels become the `Rgba` structure with `Nat` components; byte
  ranges are carried as hypotheses where they matter.
- `f32` values appear only where a claim needs them; a finite `f32` is a
  rational number, modelled by `F32.val q`, and the non-finite floats are
  collapsed into `F32.nonFinite`.
-/

/-- One pixel: the `[u8; 4]` RGBA array of `src/style.rs` / `src/stage.rs`. -/
structure Rgba where
  r : Nat
  g : Nat
  b : Nat
  a : Nat
deriving DecidableEq, Repr

/-- The `Color` struct of `src/style.rs`: a wrapper around an RGBA array.
`Color.rgba` is the field accessor `Color::rgba`. -/
structure Color where
  rgba : Rgba
deriving DecidableEq, Repr

/-- An `f32` value as used by the style/shape code: either non-finite, or a
finite value, which is an exact rational number. -/
inductive F32 where
  | nonFinite : F32
  | val : ℚ → F32
deriving DecidableEq

/-- The `Opacity` struct of `src/style.rs`: a single byte multiplier. -/
structure Opacity where
  val : Nat
deriving DecidableEq, Repr

/-- The `Fill` struct of `src/style.rs`: a color paired with an opacity. -/
structure Fill where
  color : Color
  opacity : Opacity

/-- The `Stroke` struct of `src/style.rs`: color, opacity and an `f32` width. -/
structure Stroke where
  color : Color
  opacity : Opacity
  width : F32

/-- The `Style` struct of `src/style.rs`: optional fill and optional stroke. -/
structure Style where
  fill : Option Fill
  stroke : Option Stroke

/-- Models `Style::fill_or_stroke_exists` from `src/style.rs`. -/
def Style.fill_or_stroke_exists (s : Style) : Bool :=
  s.fill.isSome || s.stroke.isSome

/-- Models `Fill::rgba` from `src/style.rs` lines 223-231: the effective color keeps
R, G, B and replaces the alpha byte by `(a * opacity + 127) / 255`, where the
product is computed in `u16` (modelled as unbounded `Nat`; the claim theorem
shows the intermediate stays below `2^16`). -/
def Fill.rgba (f : Fill) : Color :=
  let c := f.color.rgba
  ⟨⟨c.r, c.g, c.b, (c.a * f.opacity.val + 127) / 255⟩⟩

/-- Models `Stroke::rgba` from `src/style.rs` lines 248-256: identical computation to
`Fill::rgba`. -/
def Stroke.rgba (s : Stroke) : Color :=
  let c := s.color.rgba
  ⟨⟨c.r, c.g, c.b, (c.a * s.opacity.val + 127) / 255⟩⟩

/-- Round-to-nearest of the fraction `n / d` (for positive `d`; with `d = 255`
no tie can occur, so all rounding modes that agree on non-ties coincide). -/
def round_nearest (n d : Nat) : Nat :=
  (2 * n + d) / (2 * d)

/-- The `Stage` struct of `src/stage.rs`: a row-major framebuffer of
`width * height` RGBA pixels. -/
structure Stage where
  width : Nat
  height : Nat
  framebuf : List Rgba
deriving DecidableEq, Repr

/-- The `Stage` invariant established by `Stage::new` and preserved by every
operation: the framebuffer holds exactly `width * height` pixels. -/
def Stage.WF (st : Stage) : Prop :=
  st.framebuf.length = st.width * st.height

/-- The platform `usize` is 64 bits wide, so `checked_mul` overflows exactly
when the mathematical product reaches `2^64`. -/
def usize_size : Nat := 2 ^ 64

/-- Models `Stage::new` from `src/stage.rs` lines 26-37.  The `assert!` on strictly
positive dimensions and the `checked_mul(..).expect(..)` on the pixel count are
the two fatal exits; both are modelled as `none`.  Otherwise the framebuffer is
`vec![[0, 0, 0, 0]; width * height]`. -/
def Stage.new (width height : Nat) : Option Stage :=
  if width = 0 ∨ height = 0 then none
  else if usize_size ≤ width * height then none
  else some ⟨width, height, List.replicate (width * height) ⟨0, 0, 0, 0⟩⟩

/-- Models `Stage::get_pixel` from `src/stage.rs` lines 67-76.  After the bounds
check the Rust code indexes the buffer directly (which cannot fail under
`Stage.WF`); the embedding uses the `Option`-valued lookup, which agrees with
the direct index whenever the index is in range. -/
def Stage.get_pixel (st : Stage) (x y : Nat) : Option Rgba :=
  if x ≥ st.width ∨ y ≥ st.height then none
  else st.framebuf[y * st.width + x]?

/-- Models `Stage::set_pixel` from `src/stage.rs` lines 112-122: silent return when
out of bounds, otherwise one in-place write (`List.set`, which is the
assignment `framebuf[index] = color` for an in-range index). -/
def Stage.set_pixel (st : Stage) (x y : Nat) (color : Color) : Stage :=
  if x ≥ st.width ∨ y ≥ st.height then st
  else { st with framebuf := st.framebuf.set (y * st.width + x) color.rgba }

/-- Models `Stage::plot` from `src/stage.rs` lines 130-141: signed coordinates,
negative coordinates rejected, then the same bounds-checked write.  The shape
code resolves the style color before plotting, so the pixel payload is the raw
RGBA value. -/
def Stage.plot (st : Stage) (x y : Int) (color : Rgba) : Stage :=
  if x < 0 ∨ y < 0 then st
  else
    let xu := x.toNat
    let yu := y.toNat
    if xu < st.width ∧ yu < st.height then
      { st with framebuf := st.framebuf.set (yu * st.width + xu) color }
    else st

/-- Element-wise form of the slice fill `buf[lo ..= hi].fill(c)`: the entry at
absolute position `i + k` (for the `k`-th element of the list) is replaced by
`c` exactly when that position lies in `[lo, hi]`. -/
def fill_from (i lo hi : Nat) (c : Rgba) : List Rgba → List Rgba
  | [] => []
  | x :: xs => (if lo ≤ i ∧ i ≤ hi then c else x) :: fill_from (i + 1) lo hi c xs

/-- The slice fill `buf[lo .. hi + 1].fill(c)` of `Stage::fill_span`. -/
def fill_range (l : List Rgba) (lo hi : Nat) (c : Rgba) : List Rgba :=
  fill_from 0 lo hi c l

/-- Models `Stage::fill_span` from `src/stage.rs` lines 185-203, guard for guard:
negative row, row at or past the height, `x0 > x1`, span fully outside the
width, and the (unreachable) post-clip empty range all return the stage
unchanged; otherwise the pixels `row + a ..= row + b` are overwritten. -/
def Stage.fill_span (st : Stage) (y x0 x1 : Int) (color : Color) : Stage :=
  if y < 0 then st
  else
    let yn := y.toNat
    if yn ≥ st.height then st
    else if x0 > x1 then st
    else if x1 < 0 ∨ x0 ≥ (st.width : Int) then st
    else
      let a := max x0 0
      let b := min x1 ((st.width : Int) - 1)
      if a > b then st
      else
        let row := yn * st.width
        { st with framebuf := fill_range st.framebuf (row + a.toNat) (row + b.toNat) color.rgba }

/-- A concrete 3×3 transparent stage, used for concrete counterexamples. -/
def st3 : Stage :=
  ⟨3, 3, List.replicate 9 ⟨0, 0, 0, 0⟩⟩

/-- Concrete opaque red, as in `Color::RED`. -/
def red : Color :=
  ⟨⟨255, 0, 0, 255⟩⟩

-- ### Basic lemmas about the pixel primitives

theorem fill_from_getElem? (lo hi : Nat) (c : Rgba) :
    ∀ (l : List Rgba) (i k : Nat),
      (fill_from i lo hi c l)[k]? =
        (l[k]?).map (fun x => if lo ≤ i + k ∧ i + k ≤ hi then c else x) := by
  intro l
  induction l with
  | nil => intro i k; simp [fill_from]
  | cons x xs ih =>
    intro i k
    cases k with
    | zero => simp [fill_from]
    | succ k =>
      simp only [fill_from, List.getElem?_cons_succ, ih (i + 1) k]
      have : i + 1 + k = i + (k + 1) := by omega
      rw [this]

theorem fill_from_length (lo hi : Nat) (c : Rgba) :
    ∀ (l : List Rgba) (i : Nat), (fill_from i lo hi c l).length = l.length := by
  intro l
  induction l with
  | nil => intro i; rfl
  | cons x xs ih => intro i; simp [fill_from, ih]

theorem fill_range_getElem? (l : List Rgba) (lo hi k : Nat) (c : Rgba) :
    (fill_range l lo hi c)[k]? =
      (l[k]?).map (fun x => if lo ≤ k ∧ k ≤ hi then c else x) := by
  simpa using fill_from_getElem? lo hi c l 0 k

theorem fill_span_width (st : Stage) (y x0 x1 : Int) (c : Color) :
    (st.fill_span y x0 x1 c).width = st.width := by
  simp only [Stage.fill_span]
  split_ifs <;> rfl

theorem fill_span_height (st : Stage) (y x0 x1 : Int) (c : Color) :
    (st.fill_span y x0 x1 c).height = st.height := by
  simp only [Stage.fill_span]
  split_ifs <;> rfl

/-- Decomposing a row-major index: with both columns below the width, two
indices agree exactly when row and column agree. -/
theorem row_major_index_inj (w i px j py : Nat) (hi : i < w) (hpx : px < w) :
    j * w + i = py * w + px ↔ (i = px ∧ j = py) := by
  constructor
  · intro h
    have hw : 0 < w := Nat.pos_of_ne_zero (by omega)
    have h' : w * j + i = w * py + px := by
      rw [Nat.mul_comm w j, Nat.mul_comm w py]; exact h
    have hj : (w * j + i) / w = j := by
      rw [Nat.mul_add_div hw, Nat.div_eq_of_lt hi]; omega
    have hpy : (w * py + px) / w = py := by
      rw [Nat.mul_add_div hw, Nat.div_eq_of_lt hpx]; omega
    have hmod : (w * j + i) % w = i := by
      rw [Nat.mul_add_mod, Nat.mod_eq_of_lt hi]
    have hmod' : (w * py + px) % w = px := by
      rw [Nat.mul_add_mod, Nat.mod_eq_of_lt hpx]
    constructor
    · rw [← hmod, ← hmod', h']
    · rw [← hj, ← hpy, h']
  · rintro ⟨rfl, rfl⟩
    rfl

theorem index_lt_of_lt (w h x y : Nat) (hx : x < w) (hy : y < h) :
    y * w + x < w * h := by
  have h1 : y * w + x < (y + 1) * w := by
    have : (y + 1) * w = y * w + w := by ring
    omega
  have h2 : (y + 1) * w ≤ h * w := Nat.mul_le_mul_right w (by omega)
  have h3 : h * w = w * h := Nat.mul_comm h w
  omega

/-- Two row-major indices built from a common width: the index of column `i` in
row `j` lies in the segment `[A, B]` of row `yn` exactly when `j` is the row
`yn` and `i` lies in `[A, B]`. -/
theorem span_index_iff (w yn j i A B : Nat) (hi : i < w) (hA : A ≤ B) (hB : B < w) :
    (yn * w + A ≤ j * w + i ∧ j * w + i ≤ yn * w + B) ↔ (j = yn ∧ A ≤ i ∧ i ≤ B) := by
  constructor
  · rintro ⟨h1, h2⟩
    have hj : j = yn := by
      rcases Nat.lt_trichotomy j yn with h | h | h
      · exfalso
        have hm : (j + 1) * w ≤ yn * w := Nat.mul_le_mul_right w (by omega)
        have he : (j + 1) * w = j * w + w := by ring
        omega
      · exact h
      · exfalso
        have hm : (yn + 1) * w ≤ j * w := Nat.mul_le_mul_right w (by omega)
        have he : (yn + 1) * w = yn * w + w := by ring
        omega
    subst hj
    omega
  · rintro ⟨rfl, h1, h2⟩
    omega

-- ### C4: construction

/-- C4: `Stage::new(width, height)` fails fatally (modelled as `none`) exactly
when `width` is zero, `height` is zero, or `width * height` overflows `usize`;
for every other input it returns a stage whose pixel array has length
`width * height` with every pixel equal to `(0, 0, 0, 0)`. -/
theorem stage_new_spec (width height : Nat) :
    (Stage.new width height = none ↔
      width = 0 ∨ height = 0 ∨ usize_size ≤ width * height) ∧
    (∀ st, Stage.new width height = some st →
      st.width = width ∧ st.height = height ∧
      st.framebuf.length = width * height ∧
      ∀ p ∈ st.framebuf, p = ⟨0, 0, 0, 0⟩) := by
  constructor
  · unfold Stage.new
    split_ifs with h1 h2
    · simp only [true_iff]
      tauto
    · simp only [true_iff]
      tauto
    · have hc : ¬(width = 0 ∨ height = 0 ∨ usize_size ≤ width * height) := by
        tauto
      constructor
      · intro h
        exact absurd h (by simp)
      · intro h
        exact absurd h hc
  · intro st h
    unfold Stage.new at h
    split_ifs at h
    injection h with h
    subst h
    refine ⟨rfl, rfl, by simp, ?_⟩
    intro p hp
    exact List.eq_of_mem_replicate hp

-- ### C9: effective alpha

/-- C9: for a color with intrinsic alpha `a` and opacity `o` (both bytes), the
effective color resolved by `Fill::rgba` — and identically by `Stroke::rgba` —
keeps the R, G, B bytes and has alpha `round(a * o / 255)`; the widened
intermediate product `a * o + 127` stays below `2^16`, so the `u16`
computation does not overflow. -/
theorem effective_alpha_round (r g b a o : Nat) (w : F32)
    (ha : a ≤ 255) (ho : o ≤ 255) :
    (Fill.rgba ⟨⟨⟨r, g, b, a⟩⟩, ⟨o⟩⟩).rgba = ⟨r, g, b, round_nearest (a * o) 255⟩ ∧
    (Stroke.rgba ⟨⟨⟨r, g, b, a⟩⟩, ⟨o⟩, w⟩).rgba = ⟨r, g, b, round_nearest (a * o) 255⟩ ∧
    a * o + 127 < 2 ^ 16 := by
  have key : (a * o + 127) / 255 = round_nearest (a * o) 255 := by
    unfold round_nearest
    rw [show 2 * (a * o) + 255 = 2 * (a * o + 127) + 1 by ring]
    rw [← Nat.div_div_eq_div_mul]
    rw [Nat.mul_add_div (by norm_num)]
  refine ⟨?_, ?_, ?_⟩
  · simp [Fill.rgba, key]
  · simp [Stroke.rgba, key]
  · have hm : a * o ≤ 255 * 255 := Nat.mul_le_mul ha ho
    have : (2 : Nat) ^ 16 = 65536 := by norm_num
    omega

/-- C9 witness: the theorem instantiated at alpha 200, opacity 128. -/
theorem effective_alpha_round_witness :
    200 ≤ 255 ∧ 128 ≤ 255 ∧
    (Fill.rgba ⟨⟨⟨1, 2, 3, 200⟩⟩, ⟨128⟩⟩).rgba = ⟨1, 2, 3, round_nearest (200 * 128) 255⟩ :=
  ⟨by decide, by decide,
    (effective_alpha_round 1 2 3 200 128 F32.nonFinite (by decide) (by decide)).1⟩

-- ### C5: pixel set/get round trip

/-- C5: on a well-formed stage, an in-bounds `set_pixel` is read back
identically by `get_pixel`; an out-of-bounds `get_pixel` yields `none` and an
out-of-bounds `set_pixel` leaves the stage unchanged. -/
theorem set_get_pixel_roundtrip (st : Stage) (hwf : st.WF) (x y : Nat) (c : Color) :
    (x < st.width → y < st.height →
      (st.set_pixel x y c).get_pixel x y = some c.rgba) ∧
    (st.width ≤ x ∨ st.height ≤ y →
      st.get_pixel x y = none ∧ st.set_pixel x y c = st) := by
  constructor
  · intro hx hy
    unfold Stage.set_pixel
    rw [if_neg (by omega)]
    unfold Stage.get_pixel
    rw [if_neg (by simp; omega)]
    rw [List.getElem?_set]
    rw [if_pos rfl]
    rw [if_pos (by rw [hwf]; exact index_lt_of_lt _ _ _ _ hx hy)]
  · intro h
    refine ⟨?_, ?_⟩
    · unfold Stage.get_pixel
      rw [if_pos (by omega)]
    · unfold Stage.set_pixel
      rw [if_pos (by omega)]

/-- C5 witness: the theorem instantiated on the concrete 3×3 stage at the
in-bounds pixel (2, 1) and at the out-of-bounds pixel (3, 1). -/
theorem set_get_pixel_roundtrip_witness :
    (st3.set_pixel 2 1 red).get_pixel 2 1 = some red.rgba ∧
    (st3.get_pixel 3 1 = none ∧ st3.set_pixel 3 1 red = st3) :=
  ⟨(set_get_pixel_roundtrip st3 (by rfl) 2 1 red).1 (by decide) (by decide),
    (set_get_pixel_roundtrip st3 (by rfl) 3 1 red).2 (by decide)⟩

-- ### C1: fill_span

/-- C1 counterexample: `fill_span` is not order-independent in `x0`, `x1`.
With the arguments in decreasing order (`x0 = 2 > x1 = 0`) the call is a
no-op because of the `if x0 > x1` early return, while the claim demands that
it color the in-bounds pixels between 0 and 2 of row 1 — as the swapped call
does, producing a different stage. -/
theorem fill_span_swap_counterexample :
    st3.fill_span 1 2 0 red = st3 ∧ st3.fill_span 1 0 2 red ≠ st3 := by
  constructor
  · decide
  · decide

/-- Pixels of a row other than `y` are untouched by `fill_span` (no
well-formedness needed: the write stays inside row `y.toNat`). -/
theorem fill_span_other_row (st : Stage) (y x0 x1 : Int) (c : Color) (i j : Nat)
    (hrow : (j : Int) ≠ y) :
    (st.fill_span y x0 x1 c).get_pixel i j = st.get_pixel i j := by
  simp only [Stage.fill_span]
  split_ifs with h1 h2 h3 h4 h5 <;> try rfl
  simp only [Stage.get_pixel]
  by_cases hb : i ≥ st.width ∨ j ≥ st.height
  · rw [if_pos hb, if_pos hb]
  · rw [if_neg hb, if_neg hb]
    push_neg at hb
    rw [fill_range_getElem?]
    have hab : max x0 0 ≤ min x1 ((st.width : Int) - 1) := by omega
    have hAB : (max x0 0).toNat ≤ (min x1 ((st.width : Int) - 1)).toNat := by omega
    have hBw : (min x1 ((st.width : Int) - 1)).toNat < st.width := by omega
    have hcond : ¬(y.toNat * st.width + (max x0 0).toNat ≤ j * st.width + i ∧
        j * st.width + i ≤ y.toNat * st.width + (min x1 ((st.width : Int) - 1)).toNat) := by
      rw [span_index_iff st.width y.toNat j i _ _ hb.1 hAB hBw]
      rintro ⟨rfl, -, -⟩
      omega
    cases st.framebuf[j * st.width + i]? <;> simp [hcond]

/-- C1 (amended): when `x0 ≤ x1`, `fill_span(y, x0, x1, c)` colors exactly the
in-bounds pixels of row `y` with column between `x0` and `x1`; it is a no-op
when `x0 > x1`, when the row is out of bounds, or when the span lies fully
outside the width.  Stated as a per-pixel characterization: an in-bounds pixel
`(i, j)` of the result holds `c` exactly when `j = y` and `x0 ≤ i ≤ x1`, and
is unchanged otherwise. -/
theorem fill_span_pixels (st : Stage) (hwf : st.WF) (y x0 x1 : Int) (c : Color)
    (i j : Nat) (hi : i < st.width) (hj : j < st.height) :
    (st.fill_span y x0 x1 c).get_pixel i j =
      if (j : Int) = y ∧ x0 ≤ (i : Int) ∧ (i : Int) ≤ x1 then some c.rgba
      else st.get_pixel i j := by
  by_cases hjy : (j : Int) = y
  case neg =>
    rw [if_neg (fun hc => hjy hc.1), fill_span_other_row st y x0 x1 c i j hjy]
  case pos =>
    simp only [Stage.fill_span]
    rw [if_neg (show ¬y < 0 by omega)]
    rw [if_neg (show ¬y.toNat ≥ st.height by omega)]
    by_cases h3 : x0 > x1
    · rw [if_pos h3, if_neg (by rintro ⟨-, hA, hB⟩; omega)]
    rw [if_neg h3]
    by_cases h4 : x1 < 0 ∨ x0 ≥ (st.width : Int)
    · rw [if_pos h4, if_neg (by rintro ⟨-, hA, hB⟩; omega)]
    rw [if_neg h4]
    push_neg at h4
    have hab : max x0 0 ≤ min x1 ((st.width : Int) - 1) := by omega
    rw [if_neg (not_lt.mpr hab)]
    have hAB : (max x0 0).toNat ≤ (min x1 ((st.width : Int) - 1)).toNat := by omega
    have hBw : (min x1 ((st.width : Int) - 1)).toNat < st.width := by omega
    have hidx : j * st.width + i < st.framebuf.length := by
      rw [hwf]; exact index_lt_of_lt _ _ _ _ hi hj
    have hold : st.framebuf[j * st.width + i]? = some st.framebuf[j * st.width + i] :=
      List.getElem?_eq_getElem hidx
    have hspan := span_index_iff st.width y.toNat j i (max x0 0).toNat
      (min x1 ((st.width : Int) - 1)).toNat hi hAB hBw
    conv_lhs => simp only [Stage.get_pixel]
    rw [if_neg (show ¬(i ≥ st.width ∨ j ≥ st.height) by omega)]
    rw [fill_range_getElem?, hold, Option.map_some']
    by_cases hP : x0 ≤ (i : Int) ∧ (i : Int) ≤ x1
    · rw [if_pos (hspan.mpr ⟨by omega, by omega, by omega⟩)]
      rw [if_pos ⟨hjy, hP.1, hP.2⟩]
    · rw [if_neg (fun hc => hP ⟨by have := (hspan.mp hc).2.1; omega,
        by have := (hspan.mp hc).2.2; omega⟩)]
      rw [if_neg (fun hc => hP ⟨hc.2.1, hc.2.2⟩)]
      simp only [Stage.get_pixel]
      rw [if_neg (show ¬(i ≥ st.width ∨ j ≥ st.height) by omega), hold]

/-- C1 witness: the amended characterization evaluated on the concrete 3×3
stage at row 1, span 0..2: pixel (1, 1) is colored and pixel (1, 2) is
unchanged. -/
theorem fill_span_pixels_witness :
    (st3.fill_span 1 0 2 red).get_pixel 1 1 = some red.rgba ∧
    (st3.fill_span 1 0 2 red).get_pixel 1 2 = st3.get_pixel 1 2 := by
  constructor
  · have h := fill_span_pixels st3 (by rfl) 1 0 2 red 1 1 (by decide) (by decide)
    rwa [if_pos (by constructor <;> decide)] at h
  · have h := fill_span_pixels st3 (by rfl) 1 0 2 red 1 2 (by decide) (by decide)
    rwa [if_neg (by intro hc; exact absurd hc.1 (by decide))] at h

-- ### Line rasterizer (`src/shapes/lines.rs`)

/-- Models `out_code` from `src/shapes/lines.rs` lines 87-94: the Cohen–Sutherland
outcode, built by `c |= 1` (left), `c |= 2` (right), `c |= 4` (above ymin),
`c |= 8` (below ymax); the two `if/else if` chains contribute disjoint bit
groups, so the `|=` accumulation is the bitwise or of the two chains. -/
def out_code (x y xmin ymin xmax ymax : Int) : Nat :=
  (if x < xmin then 1 else if x > xmax then 2 else 0) |||
  (if y < ymin then 4 else if y > ymax then 8 else 0)

/-- Result of the clipping loop.  Rust's `i64` division panics on a zero
divisor; the `divZero` constructor marks the states in which the source would
perform such a division (the verification shows it is never produced).
`fuelOut` marks exhaustion of the explicit loop-iteration budget. -/
inductive ClipRes where
  | ok : Option ((Int × Int) × (Int × Int)) → ClipRes
  | divZero : ClipRes
  | fuelOut : ClipRes
deriving DecidableEq

/-- The `loop` of `clip_line_to_stage` from `src/shapes/lines.rs` lines
114-159, with an explicit iteration budget (Cohen–Sutherland terminates after
at most four clips; every caller passes a budget of 8).  The outcodes `c0` and
`c1` are recomputed from the current endpoints each round, exactly as the Rust
code keeps them in sync.  Intersections use `i64` arithmetic, i.e. exact `Int`
arithmetic with Rust's truncating division `Int.tdiv`. -/
def clip_loop (xmin ymin xmax ymax : Int) : Nat → Int × Int → Int × Int → ClipRes
  | 0, _, _ => ClipRes.fuelOut
  | fuel + 1, (x0, y0), (x1, y1) =>
    let c0 := out_code x0 y0 xmin ymin xmax ymax
    let c1 := out_code x1 y1 xmin ymin xmax ymax
    if c0 ||| c1 = 0 then ClipRes.ok (some ((x0, y0), (x1, y1)))
    else if c0 &&& c1 ≠ 0 then ClipRes.ok none
    else
      let cOut := if c0 ≠ 0 then c0 else c1
      let dx := x1 - x0
      let dy := y1 - y0
      if cOut &&& 8 ≠ 0 then
        if dy = 0 then ClipRes.divZero
        else
          let yi := ymax
          let xi := x0 + Int.tdiv (dx * (yi - y0)) dy
          if cOut = c0 then clip_loop xmin ymin xmax ymax fuel (xi, yi) (x1, y1)
          else clip_loop xmin ymin xmax ymax fuel (x0, y0) (xi, yi)
      else if cOut &&& 4 ≠ 0 then
        if dy = 0 then ClipRes.divZero
        else
          let yi := ymin
          let xi := x0 + Int.tdiv (dx * (yi - y0)) dy
          if cOut = c0 then clip_loop xmin ymin xmax ymax fuel (xi, yi) (x1, y1)
          else clip_loop xmin ymin xmax ymax fuel (x0, y0) (xi, yi)
      else if cOut &&& 2 ≠ 0 then
        if dx = 0 then ClipRes.divZero
        else
          let xi := xmax
          let yi := y0 + Int.tdiv (dy * (xi - x0)) dx
          if cOut = c0 then clip_loop xmin ymin xmax ymax fuel (xi, yi) (x1, y1)
          else clip_loop xmin ymin xmax ymax fuel (x0, y0) (xi, yi)
      else
        if dx = 0 then ClipRes.divZero
        else
          let xi := xmin
          let yi := y0 + Int.tdiv (dy * (xi - x0)) dx
          if cOut = c0 then clip_loop xmin ymin xmax ymax fuel (xi, yi) (x1, y1)
          else clip_loop xmin ymin xmax ymax fuel (x0, y0) (xi, yi)

/-- Models `clip_line_to_stage` from `src/shapes/lines.rs` lines 98-160: clip against
the rectangle `[0, width-1] × [0, height-1]`. -/
def clip_line_to_stage (fuel : Nat) (st : Stage) (p0 p1 : Int × Int) : ClipRes :=
  clip_loop 0 0 ((st.width : Int) - 1) ((st.height : Int) - 1) fuel p0 p1

-- Bit-group lemmas for `out_code`.

theorem out_code_and8 (x y xmin ymin xmax ymax : Int) :
    out_code x y xmin ymin xmax ymax &&& 8 =
      if ¬y < ymin ∧ ymax < y then 8 else 0 := by
  unfold out_code
  split_ifs <;> first | rfl | omega | (exfalso; omega) | decide

theorem out_code_and4 (x y xmin ymin xmax ymax : Int) :
    out_code x y xmin ymin xmax ymax &&& 4 =
      if y < ymin then 4 else 0 := by
  unfold out_code
  split_ifs <;> first | rfl | omega | (exfalso; omega) | decide

theorem out_code_and2 (x y xmin ymin xmax ymax : Int) :
    out_code x y xmin ymin xmax ymax &&& 2 =
      if ¬x < xmin ∧ xmax < x then 2 else 0 := by
  unfold out_code
  split_ifs <;> first | rfl | omega | (exfalso; omega) | decide

theorem out_code_and1 (x y xmin ymin xmax ymax : Int) :
    out_code x y xmin ymin xmax ymax &&& 1 =
      if x < xmin then 1 else 0 := by
  unfold out_code
  split_ifs <;> first | rfl | omega | (exfalso; omega) | decide

theorem out_code_eq_zero (x y xmin ymin xmax ymax : Int)
    (h1 : xmin ≤ x) (h2 : x ≤ xmax) (h3 : ymin ≤ y) (h4 : y ≤ ymax) :
    out_code x y xmin ymin xmax ymax = 0 := by
  unfold out_code
  split_ifs <;> first | rfl | omega | (exfalso; omega)

/-- An outcode with none of the bits 8, 4, 2 set is either 0 or 1, and if it
is nonzero the x-coordinate lies left of `xmin`. -/
theorem out_code_low_bit (x y xmin ymin xmax ymax : Int)
    (h8 : out_code x y xmin ymin xmax ymax &&& 8 = 0)
    (h4 : out_code x y xmin ymin xmax ymax &&& 4 = 0)
    (h2 : out_code x y xmin ymin xmax ymax &&& 2 = 0)
    (h0 : out_code x y xmin ymin xmax ymax ≠ 0) :
    x < xmin := by
  by_contra hx
  unfold out_code at h8 h4 h2 h0
  split_ifs at h8 h4 h2 h0 <;>
    first
    | omega
    | (exfalso; revert h8 h4 h2 h0; decide)

/-- If the two endpoints share their y-coordinate and one outcode has bit 8
(below `ymax`), so does the other, contradicting `c0 & c1 == 0`. -/
theorem no_shared_bit8 (x0 y0 x1 y1 xmin ymin xmax ymax : Int)
    (hy : y0 = y1)
    (hand : out_code x0 y0 xmin ymin xmax ymax &&&
      out_code x1 y1 xmin ymin xmax ymax = 0)
    (hcond : ¬y0 < ymin ∧ ymax < y0) : False := by
  have a0 := out_code_and8 x0 y0 xmin ymin xmax ymax
  have a1 := out_code_and8 x1 y1 xmin ymin xmax ymax
  have hcond1 : ¬y1 < ymin ∧ ymax < y1 := hy ▸ hcond
  rw [if_pos hcond] at a0
  rw [if_pos hcond1] at a1
  have h : (out_code x0 y0 xmin ymin xmax ymax &&&
      out_code x1 y1 xmin ymin xmax ymax) &&& 8 = 8 := by
    rw [Nat.land_assoc, a1, a0]
  rw [hand] at h
  exact absurd h (by decide)

/-- As `no_shared_bit8`, for bit 4 (above `ymin`). -/
theorem no_shared_bit4 (x0 y0 x1 y1 xmin ymin xmax ymax : Int)
    (hy : y0 = y1)
    (hand : out_code x0 y0 xmin ymin xmax ymax &&&
      out_code x1 y1 xmin ymin xmax ymax = 0)
    (hcond : y0 < ymin) : False := by
  have a0 := out_code_and4 x0 y0 xmin ymin xmax ymax
  have a1 := out_code_and4 x1 y1 xmin ymin xmax ymax
  have hcond1 : y1 < ymin := hy ▸ hcond
  rw [if_pos hcond] at a0
  rw [if_pos hcond1] at a1
  have h : (out_code x0 y0 xmin ymin xmax ymax &&&
      out_code x1 y1 xmin ymin xmax ymax) &&& 4 = 4 := by
    rw [Nat.land_assoc, a1, a0]
  rw [hand] at h
  exact absurd h (by decide)

/-- As `no_shared_bit8`, for bit 2 (right of `xmax`), with a shared
x-coordinate. -/
theorem no_shared_bit2 (x0 y0 x1 y1 xmin ymin xmax ymax : Int)
    (hx : x0 = x1)
    (hand : out_code x0 y0 xmin ymin xmax ymax &&&
      out_code x1 y1 xmin ymin xmax ymax = 0)
    (hcond : ¬x0 < xmin ∧ xmax < x0) : False := by
  have a0 := out_code_and2 x0 y0 xmin ymin xmax ymax
  have a1 := out_code_and2 x1 y1 xmin ymin xmax ymax
  have hcond1 : ¬x1 < xmin ∧ xmax < x1 := hx ▸ hcond
  rw [if_pos hcond] at a0
  rw [if_pos hcond1] at a1
  have h : (out_code x0 y0 xmin ymin xmax ymax &&&
      out_code x1 y1 xmin ymin xmax ymax) &&& 2 = 2 := by
    rw [Nat.land_assoc, a1, a0]
  rw [hand] at h
  exact absurd h (by decide)

/-- As `no_shared_bit8`, for bit 1 (left of `xmin`), with a shared
x-coordinate. -/
theorem no_shared_bit1 (x0 y0 x1 y1 xmin ymin xmax ymax : Int)
    (hx : x0 = x1)
    (hand : out_code x0 y0 xmin ymin xmax ymax &&&
      out_code x1 y1 xmin ymin xmax ymax = 0)
    (hcond : x0 < xmin) : False := by
  have a0 := out_code_and1 x0 y0 xmin ymin xmax ymax
  have a1 := out_code_and1 x1 y1 xmin ymin xmax ymax
  have hcond1 : x1 < xmin := hx ▸ hcond
  rw [if_pos hcond] at a0
  rw [if_pos hcond1] at a1
  have h : (out_code x0 y0 xmin ymin xmax ymax &&&
      out_code x1 y1 xmin ymin xmax ymax) &&& 1 = 1 := by
    rw [Nat.land_assoc, a1, a0]
  rw [hand] at h
  exact absurd h (by decide)

/-- Every division reached inside the clipping loop has a nonzero divisor, for
any iteration budget, rectangle, and endpoints: the loop never produces the
`divZero` marker. -/
theorem clip_loop_ne_divZero (xmin ymin xmax ymax : Int) :
    ∀ (fuel : Nat) (p0 p1 : Int × Int),
      clip_loop xmin ymin xmax ymax fuel p0 p1 ≠ ClipRes.divZero := by
  intro fuel
  induction fuel with
  | zero =>
    intro p0 p1
    obtain ⟨x0, y0⟩ := p0
    obtain ⟨x1, y1⟩ := p1
    simp only [clip_loop]
    decide
  | succ n ih =>
    rintro ⟨x0, y0⟩ ⟨x1, y1⟩
    simp only [clip_loop]
    by_cases h1 : out_code x0 y0 xmin ymin xmax ymax |||
        out_code x1 y1 xmin ymin xmax ymax = 0
    · rw [if_pos h1]; simp
    rw [if_neg h1]
    by_cases h2 : out_code x0 y0 xmin ymin xmax ymax &&&
        out_code x1 y1 xmin ymin xmax ymax ≠ 0
    · rw [if_pos h2]; simp
    rw [if_neg h2]
    push_neg at h2
    by_cases hc : out_code x0 y0 xmin ymin xmax ymax ≠ 0
    · simp only [if_pos hc]
      by_cases h8 : out_code x0 y0 xmin ymin xmax ymax &&& 8 ≠ 0
      · simp only [if_pos h8]
        have a8 := out_code_and8 x0 y0 xmin ymin xmax ymax
        by_cases hcond : ¬y0 < ymin ∧ ymax < y0
        · have hdy : y1 - y0 ≠ 0 := fun h0 =>
            no_shared_bit8 x0 y0 x1 y1 xmin ymin xmax ymax (by omega) h2 hcond
          rw [if_neg hdy]
          split_ifs <;> exact ih _ _
        · rw [if_neg hcond] at a8
          exact absurd a8 h8
      · rw [if_neg h8]
        by_cases h4 : out_code x0 y0 xmin ymin xmax ymax &&& 4 ≠ 0
        · simp only [if_pos h4]
          have a4 := out_code_and4 x0 y0 xmin ymin xmax ymax
          by_cases hcond : y0 < ymin
          · have hdy : y1 - y0 ≠ 0 := fun h0 =>
              no_shared_bit4 x0 y0 x1 y1 xmin ymin xmax ymax (by omega) h2 hcond
            rw [if_neg hdy]
            split_ifs <;> exact ih _ _
          · rw [if_neg hcond] at a4
            exact absurd a4 h4
        · rw [if_neg h4]
          by_cases h2b : out_code x0 y0 xmin ymin xmax ymax &&& 2 ≠ 0
          · simp only [if_pos h2b]
            have a2 := out_code_and2 x0 y0 xmin ymin xmax ymax
            by_cases hcond : ¬x0 < xmin ∧ xmax < x0
            · have hdx : x1 - x0 ≠ 0 := fun h0 =>
                no_shared_bit2 x0 y0 x1 y1 xmin ymin xmax ymax (by omega) h2 hcond
              rw [if_neg hdx]
              split_ifs <;> exact ih _ _
            · rw [if_neg hcond] at a2
              exact absurd a2 h2b
          · rw [if_neg h2b]
            push_neg at h8 h4 h2b
            have hlow := out_code_low_bit x0 y0 xmin ymin xmax ymax h8 h4 h2b hc
            have hdx : x1 - x0 ≠ 0 := fun h0 =>
              no_shared_bit1 x0 y0 x1 y1 xmin ymin xmax ymax (by omega) h2 hlow
            rw [if_neg hdx]
            split_ifs <;> exact ih _ _
    · simp only [if_neg hc]
      push_neg at hc
      have hc1 : out_code x1 y1 xmin ymin xmax ymax ≠ 0 := by
        intro h0
        apply h1
        rw [hc, h0]
        rfl
      have h2s : out_code x1 y1 xmin ymin xmax ymax &&&
          out_code x0 y0 xmin ymin xmax ymax = 0 := by
        rw [Nat.land_comm]; exact h2
      by_cases h8 : out_code x1 y1 xmin ymin xmax ymax &&& 8 ≠ 0
      · simp only [if_pos h8]
        have a8 := out_code_and8 x1 y1 xmin ymin xmax ymax
        by_cases hcond : ¬y1 < ymin ∧ ymax < y1
        · have hdy : y1 - y0 ≠ 0 := fun h0 =>
            no_shared_bit8 x1 y1 x0 y0 xmin ymin xmax ymax (by omega) h2s hcond
          rw [if_neg hdy]
          split_ifs <;> exact ih _ _
        · rw [if_neg hcond] at a8
          exact absurd a8 h8
      · rw [if_neg h8]
        by_cases h4 : out_code x1 y1 xmin ymin xmax ymax &&& 4 ≠ 0
        · simp only [if_pos h4]
          have a4 := out_code_and4 x1 y1 xmin ymin xmax ymax
          by_cases hcond : y1 < ymin
          · have hdy : y1 - y0 ≠ 0 := fun h0 =>
              no_shared_bit4 x1 y1 x0 y0 xmin ymin xmax ymax (by omega) h2s hcond
            rw [if_neg hdy]
            split_ifs <;> exact ih _ _
          · rw [if_neg hcond] at a4
            exact absurd a4 h4
        · rw [if_neg h4]
          by_cases h2b : out_code x1 y1 xmin ymin xmax ymax &&& 2 ≠ 0
          · simp only [if_pos h2b]
            have a2 := out_code_and2 x1 y1 xmin ymin xmax ymax
            by_cases hcond : ¬x1 < xmin ∧ xmax < x1
            · have hdx : x1 - x0 ≠ 0 := fun h0 =>
                no_shared_bit2 x1 y1 x0 y0 xmin ymin xmax ymax (by omega) h2s hcond
              rw [if_neg hdx]
              split_ifs <;> exact ih _ _
            · rw [if_neg hcond] at a2
              exact absurd a2 h2b
          · rw [if_neg h2b]
            push_neg at h8 h4 h2b
            have hlow := out_code_low_bit x1 y1 xmin ymin xmax ymax h8 h4 h2b hc1
            have hdx : x1 - x0 ≠ 0 := fun h0 =>
              no_shared_bit1 x1 y1 x0 y0 xmin ymin xmax ymax (by omega) h2s hlow
            rw [if_neg hdx]
            split_ifs <;> exact ih _ _

/-- C10: the Cohen–Sutherland clipper of the line shape never divides by
zero: whenever the chosen outcode has a vertical-overflow bit set the
segment's `dy` is nonzero, and whenever it has a horizontal-overflow bit set
`dx` is nonzero (a zero delta would force both endpoints to share the same
out-of-range coordinate, rejected earlier by the `c0 & c1 != 0` test), so for
every stage, iteration budget, and pair of endpoints, `clip_line_to_stage`
never reaches a division with a zero divisor. -/
theorem clip_line_no_div_by_zero (fuel : Nat) (st : Stage) (p0 p1 : Int × Int) :
    clip_line_to_stage fuel st p0 p1 ≠ ClipRes.divZero :=
  clip_loop_ne_divZero 0 0 ((st.width : Int) - 1) ((st.height : Int) - 1) fuel p0 p1

/-- The `dx >= dy` arm of the Bresenham loop of `line_px`
(`src/shapes/lines.rs` lines 53-67): `for _ in 0..=dx`, so `dx + 1`
iterations; each iteration plots one pixel, then advances the error
accumulator and the coordinates. -/
def bres_x : Nat → Stage → Int → Int → Int → Int → Int → Int → Int → Rgba → Stage
  | 0, st, _, _, _, _, _, _, _, _ => st
  | n + 1, st, x, y, err, sx, sy, dx, dy, c =>
    let st1 := st.plot x y c
    if err ≥ 0 then bres_x n st1 (x + sx) (y + sy) (err - 2 * dx + 2 * dy) sx sy dx dy c
    else bres_x n st1 (x + sx) y (err + 2 * dy) sx sy dx dy c

/-- The `dx < dy` arm of the Bresenham loop of `line_px`
(`src/shapes/lines.rs` lines 68-82). -/
def bres_y : Nat → Stage → Int → Int → Int → Int → Int → Int → Int → Rgba → Stage
  | 0, st, _, _, _, _, _, _, _, _ => st
  | n + 1, st, x, y, err, sx, sy, dx, dy, c =>
    let st1 := st.plot x y c
    if err ≥ 0 then bres_y n st1 (x + sx) (y + sy) (err - 2 * dy + 2 * dx) sx sy dx dy c
    else bres_y n st1 x (y + sy) (err + 2 * dx) sx sy dx dy c

/-- Models `line_px` from `src/shapes/lines.rs` lines 27-83: clip the segment, bail
out if it is fully outside, otherwise run the integer Bresenham stepping along
the driving axis.  The clip budget 8 is enough for Cohen–Sutherland, which
resolves one outcode bit per round out of at most four; `divZero` is never
produced (`clip_loop_ne_divZero`), and on the unreached `divZero`/`fuelOut`
results the embedding leaves the stage unchanged. -/
def line_px (st : Stage) (p0 p1 : Int × Int) (color : Color) : Stage :=
  match clip_line_to_stage 8 st p0 p1 with
  | ClipRes.ok (some ((x1, y1), (x2, y2))) =>
    let dx := |x2 - x1|
    let dy := |y2 - y1|
    let sx := (x2 - x1).sign
    let sy := (y2 - y1).sign
    if dx ≥ dy then bres_x (dx.toNat + 1) st x1 y1 (2 * dy - dx) sx sy dx dy color.rgba
    else bres_y (dy.toNat + 1) st x1 y1 (2 * dx - dy) sx sy dx dy color.rgba
  | _ => st

/-- A segment whose endpoints both carry outcode 0 is returned unchanged by
the first round of the clipping loop. -/
theorem clip_loop_inside (xmin ymin xmax ymax : Int) (fuel : Nat)
    (x0 y0 x1 y1 : Int)
    (h0 : out_code x0 y0 xmin ymin xmax ymax = 0)
    (h1 : out_code x1 y1 xmin ymin xmax ymax = 0) :
    clip_loop xmin ymin xmax ymax (fuel + 1) (x0, y0) (x1, y1) =
      ClipRes.ok (some ((x0, y0), (x1, y1))) := by
  simp only [clip_loop]
  rw [h0, h1]
  rfl

/-- Characterization of `plot` at an in-bounds target: the target pixel takes
the plotted color, every other pixel is unchanged. -/
theorem plot_get_pixel_in (st : Stage) (hwf : st.WF) (px py : Nat)
    (hx : px < st.width) (hy : py < st.height) (c : Rgba) (i j : Nat) :
    (st.plot (px : Int) (py : Int) c).get_pixel i j =
      if i = px ∧ j = py then some c else st.get_pixel i j := by
  unfold Stage.plot
  rw [if_neg (by omega)]
  simp only [Int.toNat_natCast]
  rw [if_pos ⟨hx, hy⟩]
  by_cases hb : i ≥ st.width ∨ j ≥ st.height
  · rw [if_neg (show ¬(i = px ∧ j = py) by rintro ⟨rfl, rfl⟩; omega)]
    unfold Stage.get_pixel
    rw [if_pos hb, if_pos hb]
  · push_neg at hb
    conv_lhs => simp only [Stage.get_pixel]
    rw [if_neg (show ¬(i ≥ st.width ∨ j ≥ st.height) by omega)]
    rw [List.getElem?_set]
    by_cases hij : i = px ∧ j = py
    · obtain ⟨rfl, rfl⟩ := hij
      rw [if_pos rfl]
      rw [if_pos (by rw [hwf]; exact index_lt_of_lt _ _ _ _ hx hy)]
      rw [if_pos ⟨rfl, rfl⟩]
    · rw [if_neg (fun h => hij ((row_major_index_inj st.width i px j py hb.1 hx).mp h.symm))]
      rw [if_neg hij]
      unfold Stage.get_pixel
      rw [if_neg (show ¬(i ≥ st.width ∨ j ≥ st.height) by omega)]

/-- C7: rasterizing the zero-length segment from an in-bounds pixel `p` to
itself plots exactly the single pixel `p` with the given color, leaving every
other pixel unchanged. -/
theorem line_px_zero_length (st : Stage) (hwf : st.WF) (px py : Nat) (c : Color)
    (hx : px < st.width) (hy : py < st.height) (i j : Nat) :
    (line_px st ((px : Int), (py : Int)) ((px : Int), (py : Int)) c).get_pixel i j =
      if i = px ∧ j = py then some c.rgba else st.get_pixel i j := by
  have hoc : out_code (px : Int) (py : Int) 0 0 ((st.width : Int) - 1)
      ((st.height : Int) - 1) = 0 :=
    out_code_eq_zero _ _ _ _ _ _ (by omega) (by omega) (by omega) (by omega)
  unfold line_px clip_line_to_stage
  rw [show (8 : Nat) = 7 + 1 from rfl]
  rw [clip_loop_inside 0 0 ((st.width : Int) - 1) ((st.height : Int) - 1) 7
    (px : Int) (py : Int) (px : Int) (py : Int) hoc hoc]
  simp only [sub_self, abs_zero, Int.sign_zero, ge_iff_le, le_refl, if_true,
    Int.toNat_zero, mul_zero, zero_add, Nat.zero_add]
  simp only [bres_x, mul_zero, sub_zero, ge_iff_le, le_refl, if_true]
  exact plot_get_pixel_in st hwf px py hx hy c.rgba i j

/-- C7 witness: on the concrete 3×3 stage, the zero-length segment at (1, 1)
colors pixel (1, 1) and leaves pixel (0, 1) unchanged. -/
theorem line_px_zero_length_witness :
    (line_px st3 (1, 1) (1, 1) red).get_pixel 1 1 = some red.rgba ∧
    (line_px st3 (1, 1) (1, 1) red).get_pixel 0 1 = st3.get_pixel 0 1 := by
  constructor
  · have h := line_px_zero_length st3 (by rfl) 1 1 red (by decide) (by decide) 1 1
    rwa [if_pos ⟨rfl, rfl⟩] at h
  · have h := line_px_zero_length st3 (by rfl) 1 1 red (by decide) (by decide) 0 1
    rwa [if_neg (by rintro ⟨h0, -⟩; exact absurd h0 (by decide))] at h

-- ### Triangle rasterizer (`src/shapes/triangles.rs`)

/-- Models `sort_vertices` from `src/shapes/triangles.rs` lines 7-15: the three
vertices sorted by ascending y.  `slice::sort_by_key` is stable, which this
explicit insertion network reproduces (on equal keys the earlier vertex stays
first). -/
def sort_vertices (a b c : Int × Int) : (Int × Int) × (Int × Int) × (Int × Int) :=
  if a.2 ≤ b.2 then
    if b.2 ≤ c.2 then (a, b, c)
    else if a.2 ≤ c.2 then (a, c, b)
    else (c, a, b)
  else
    if a.2 ≤ c.2 then (b, a, c)
    else if b.2 ≤ c.2 then (b, c, a)
    else (c, b, a)

/-- Models `sort_span_bounds` from `src/shapes/triangles.rs` lines 19-21. -/
def sort_span_bounds (curx1 curx2 : Int) : Int × Int :=
  if curx1 ≤ curx2 then (curx1, curx2) else (curx2, curx1)

/-- Models `invslope_fp` from `src/shapes/triangles.rs` lines 24-26: the 16.16
fixed-point inverse slope `((dx as i64) << 16) / (dy as i64)` with Rust's
truncating `i64` division. -/
def invslope_fp (dx dy : Int) : Int :=
  Int.tdiv (dx * 65536) dy

/-- Models `fp_ceil_to_int` from `src/shapes/triangles.rs` lines 29-31:
`(x_fp + 0xFFFF) >> 16`, an arithmetic shift, i.e. floor division by `2^16`. -/
def fp_ceil_to_int (x_fp : Int) : Int :=
  Int.fdiv (x_fp + 65535) 65536

/-- The scanline walk shared by the two flat-triangle fillers (the loop bodies
of `src/shapes/triangles.rs` lines 54-65 and 88-99 are identical): starting at
row `y`, run `cnt` rows; each row fills the span between the ceiling-rounded
edge positions (right bound decremented by one) and advances both edges by
their fixed-point inverse slopes. -/
def flat_loop (st : Stage) (y : Int) (cnt : Nat) (curx1 curx2 dxdy1 dxdy2 : Int)
    (c : Color) : Stage :=
  match cnt with
  | 0 => st
  | n + 1 =>
    let xa := fp_ceil_to_int curx1
    let xb := fp_ceil_to_int curx2
    let p := sort_span_bounds xa xb
    let st1 := st.fill_span y p.1 (p.2 - 1) c
    flat_loop st1 (y + 1) n (curx1 + dxdy1) (curx2 + dxdy2) dxdy1 dxdy2 c

/-- Models `fill_flat_bottom_triangle` from `src/shapes/triangles.rs` lines 35-66:
`v1.y <= v2.y == v3.y`; scanlines run from `v1.y` inclusive to `v2.y`
exclusive. -/
def fill_flat_bottom_triangle (st : Stage) (v1 v2 v3 : Int × Int) (c : Color) :
    Stage :=
  let dy1 := v2.2 - v1.2
  let dy2 := v3.2 - v1.2
  if dy1 = 0 ∨ dy2 = 0 then st
  else
    flat_loop st v1.2 (v2.2 - v1.2).toNat (v1.1 * 65536) (v1.1 * 65536)
      (invslope_fp (v2.1 - v1.1) dy1) (invslope_fp (v3.1 - v1.1) dy2) c

/-- Models `fill_flat_top_triangle` from `src/shapes/triangles.rs` lines 69-100:
`v1.y == v2.y <= v3.y`; scanlines run from `v1.y` inclusive to `v3.y`
exclusive. -/
def fill_flat_top_triangle (st : Stage) (v1 v2 v3 : Int × Int) (c : Color) :
    Stage :=
  let dy1 := v3.2 - v1.2
  let dy2 := v3.2 - v2.2
  if dy1 = 0 ∨ dy2 = 0 then st
  else
    flat_loop st v1.2 (v3.2 - v1.2).toNat (v1.1 * 65536) (v2.1 * 65536)
      (invslope_fp (v3.1 - v1.1) dy1) (invslope_fp (v3.1 - v2.1) dy2) c

/-- Models `fill_triangle` from `src/shapes/triangles.rs` lines 103-132: sort by y,
handle the flat cases directly, otherwise split at the middle vertex's
scanline through the 16.16 fixed-point point `v4` on the long edge and fill
the flat-bottom then the flat-top sub-triangle. -/
def fill_triangle (st : Stage) (xy1 xy2 xy3 : Int × Int) (c : Color) : Stage :=
  let s := sort_vertices xy1 xy2 xy3
  let v1 := s.1
  let v2 := s.2.1
  let v3 := s.2.2
  if v1.2 = v3.2 then st
  else if v2.2 = v3.2 then fill_flat_bottom_triangle st v1 v2 v3 c
  else if v1.2 = v2.2 then fill_flat_top_triangle st v1 v2 v3 c
  else
    let dy := v3.2 - v1.2
    if dy = 0 then st
    else
      let t_fp := Int.tdiv ((v2.2 - v1.2) * 65536) dy
      let x4 := v1.1 + Int.fdiv (t_fp * (v3.1 - v1.1)) 65536
      let v4 := (x4, v2.2)
      fill_flat_top_triangle (fill_flat_bottom_triangle st v1 v2 v4 c) v2 v4 v3 c

theorem flat_loop_other_row :
    ∀ (cnt : Nat) (st : Stage) (y curx1 curx2 d1 d2 : Int) (c : Color) (i j : Nat),
      ((j : Int) < y ∨ y + (cnt : Int) ≤ (j : Int)) →
      (flat_loop st y cnt curx1 curx2 d1 d2 c).get_pixel i j = st.get_pixel i j := by
  intro cnt
  induction cnt with
  | zero => intros; rfl
  | succ n ih =>
    intro st y curx1 curx2 d1 d2 c i j hj
    simp only [flat_loop]
    rw [ih _ (y + 1) _ _ _ _ _ i j (by push_cast at hj ⊢; omega)]
    exact fill_span_other_row st y _ _ c i j (by push_cast at hj; omega)

/-- The flat-bottom filler touches only the rows of `[v1.y, v2.y)`. -/
theorem fill_flat_bottom_rows (st : Stage) (v1 v2 v3 : Int × Int) (c : Color)
    (i j : Nat) (hj : ¬(v1.2 ≤ (j : Int) ∧ (j : Int) < v2.2)) :
    (fill_flat_bottom_triangle st v1 v2 v3 c).get_pixel i j = st.get_pixel i j := by
  simp only [fill_flat_bottom_triangle]
  split_ifs with h
  · rfl
  · exact flat_loop_other_row _ st v1.2 _ _ _ _ c i j (by push_cast; omega)

/-- The flat-top filler touches only the rows of `[v1.y, v3.y)`. -/
theorem fill_flat_top_rows (st : Stage) (v1 v2 v3 : Int × Int) (c : Color)
    (i j : Nat) (hj : ¬(v1.2 ≤ (j : Int) ∧ (j : Int) < v3.2)) :
    (fill_flat_top_triangle st v1 v2 v3 c).get_pixel i j = st.get_pixel i j := by
  simp only [fill_flat_top_triangle]
  split_ifs with h
  · rfl
  · exact flat_loop_other_row _ st v1.2 _ _ _ _ c i j (by push_cast; omega)

/-- With pairwise distinct y-coordinates, the stable sort yields a strictly
increasing y-order. -/
theorem sort_vertices_strict (p1 p2 p3 : Int × Int)
    (h12 : p1.2 ≠ p2.2) (h13 : p1.2 ≠ p3.2) (h23 : p2.2 ≠ p3.2) :
    (sort_vertices p1 p2 p3).1.2 < (sort_vertices p1 p2 p3).2.1.2 ∧
    (sort_vertices p1 p2 p3).2.1.2 < (sort_vertices p1 p2 p3).2.2.2 := by
  unfold sort_vertices
  split_ifs <;> refine ⟨?_, ?_⟩ <;> dsimp only <;> omega

/-- C8: for a triangle whose three vertices have pairwise distinct
y-coordinates, the sorted vertices are strictly increasing in y, the
rasterizer splits at the middle vertex's scanline `v2.y` through the
fixed-point point `v4` and runs the flat-bottom pass then the flat-top pass;
the flat-bottom pass touches only rows in `[v1.y, v2.y)` and the flat-top pass
only rows in `[v2.y, v3.y)` — two disjoint half-open ranges, so each scanline
row (in particular the shared split row `v2.y`) is filled by at most one of
the two passes. -/
theorem fill_triangle_split_rows (st : Stage) (c : Color) (p1 p2 p3 : Int × Int)
    (h12 : p1.2 ≠ p2.2) (h13 : p1.2 ≠ p3.2) (h23 : p2.2 ≠ p3.2) :
    let s := sort_vertices p1 p2 p3
    let v1 := s.1
    let v2 := s.2.1
    let v3 := s.2.2
    let t_fp := Int.tdiv ((v2.2 - v1.2) * 65536) (v3.2 - v1.2)
    let v4 := (v1.1 + Int.fdiv (t_fp * (v3.1 - v1.1)) 65536, v2.2)
    v1.2 < v2.2 ∧ v2.2 < v3.2 ∧
    fill_triangle st p1 p2 p3 c =
      fill_flat_top_triangle (fill_flat_bottom_triangle st v1 v2 v4 c) v2 v4 v3 c ∧
    (∀ (st' : Stage) (i j : Nat), ¬(v1.2 ≤ (j : Int) ∧ (j : Int) < v2.2) →
      (fill_flat_bottom_triangle st' v1 v2 v4 c).get_pixel i j = st'.get_pixel i j) ∧
    (∀ (st' : Stage) (i j : Nat), ¬(v2.2 ≤ (j : Int) ∧ (j : Int) < v3.2) →
      (fill_flat_top_triangle st' v2 v4 v3 c).get_pixel i j = st'.get_pixel i j) := by
  obtain ⟨hv12, hv23⟩ := sort_vertices_strict p1 p2 p3 h12 h13 h23
  refine ⟨hv12, hv23, ?_, ?_, ?_⟩
  · simp only [fill_triangle]
    rw [if_neg (by omega), if_neg (by omega), if_neg (by omega), if_neg (by omega)]
  · intro st' i j hj
    exact fill_flat_bottom_rows st' _ _ _ c i j hj
  · intro st' i j hj
    exact fill_flat_top_rows st' _ _ _ c i j hj

/-- C8 witness: the triangle (0,0), (4,2), (1,5) splits at row 2 with
`v4 = (0, 2)`; the flat-bottom pass leaves the split row 2 untouched, so that
row is filled only by the flat-top pass. -/
theorem fill_triangle_split_rows_witness :
    (fill_flat_bottom_triangle st3 (0, 0) (4, 2) (0, 2) red).get_pixel 1 2 =
      st3.get_pixel 1 2 := by
  have h := fill_triangle_split_rows st3 red (0, 0) (4, 2) (1, 5)
    (by decide) (by decide) (by decide)
  exact h.2.2.2.1 st3 1 2 (by decide)

-- ### Path rendering (`src/path.rs`)

/-- Models `Path::to_pxls` from `src/path.rs` lines 34-40, with the world-point type
and the world-to-pixel conversion abstracted as `w2p` (in the source it is the
stage's `f32` world-to-pixel conversion): convert the nodes in order, bailing
out with `none` at the first unrepresentable node. -/
def to_pxls {α : Type} (w2p : α → Option (Int × Int)) :
    List α → Option (List (Int × Int))
  | [] => some []
  | v :: vs =>
    match w2p v with
    | none => none
    | some p =>
      match to_pxls w2p vs with
      | none => none
      | some ps => some (p :: ps)

/-- Models `Path::render` from `src/path.rs` lines 184-205, with the fill pass
(`Path::make_fill_pxl`) and the stroke pass (`Path::make_stroke_pxl`)
abstracted as stage transformers — their bodies rasterize with `f32`
interpolation and the conversion-guard claim holds for every instantiation.
Control flow as in the source: convert all vertices first and abandon on
failure; no-op when neither fill nor stroke is present; fill only when the
path is closed, with the effective fill color; then stroke on top with the
node list, closed flag, stroke width and effective stroke color. -/
def Path.render {α : Type} (w2p : α → Option (Int × Int))
    (make_fill : List (Int × Int) → Color → Stage → Stage)
    (make_stroke : List (Int × Int) → Bool → F32 → Color → Stage → Stage)
    (nodes : List α) (closed : Bool) (style : Style) (st : Stage) : Stage :=
  match to_pxls w2p nodes with
  | none => st
  | some nodes_px =>
    if ¬style.fill_or_stroke_exists then st
    else
      let st1 :=
        if closed then
          match style.fill with
          | some fill => make_fill nodes_px fill.rgba st
          | none => st
        else st
      match style.stroke with
      | some stroke => make_stroke nodes_px closed stroke.width stroke.rgba st1
      | none => st1

theorem to_pxls_eq_none {α : Type} (w2p : α → Option (Int × Int)) :
    ∀ (nodes : List α) (v : α), v ∈ nodes → w2p v = none →
      to_pxls w2p nodes = none := by
  intro nodes
  induction nodes with
  | nil =>
    intro v hv
    simp at hv
  | cons a as ih =>
    intro v hv hnone
    simp only [to_pxls]
    rcases List.mem_cons.mp hv with rfl | hmem
    · rw [hnone]
    · cases hw : w2p a
      · rfl
      · rw [ih v hmem hnone]

/-- C6: if the world-to-pixel conversion of any vertex of the path fails,
`Path::render` leaves the framebuffer completely unchanged — no partial render
of the other vertices or edges occurs, whatever the fill and stroke passes
would have drawn. -/
theorem render_abandons_on_unrepresentable {α : Type}
    (w2p : α → Option (Int × Int))
    (make_fill : List (Int × Int) → Color → Stage → Stage)
    (make_stroke : List (Int × Int) → Bool → F32 → Color → Stage → Stage)
    (nodes : List α) (closed : Bool) (style : Style) (st : Stage)
    (h : ∃ v ∈ nodes, w2p v = none) :
    Path.render w2p make_fill make_stroke nodes closed style st = st := by
  obtain ⟨v, hv, hnone⟩ := h
  unfold Path.render
  rw [to_pxls_eq_none w2p nodes v hv hnone]

/-- C6 witness: a closed single-node path whose conversion fails, with both
fill and stroke requested, renders to the unchanged 3×3 stage. -/
theorem render_abandons_on_unrepresentable_witness :
    Path.render (fun _ : Nat => (none : Option (Int × Int)))
      (fun _ _ s => s) (fun _ _ _ _ s => s) [0] true
      ⟨some ⟨red, ⟨255⟩⟩, some ⟨red, ⟨255⟩, F32.val 1⟩⟩ st3 = st3 :=
  render_abandons_on_unrepresentable _ _ _ _ _ _ _ ⟨0, by simp, rfl⟩

-- ### Circle radius derivation (`src/shapes/circles.rs`)

/-- The stroke-radius derivation of `circle_pxl` from `src/shapes/circles.rs`
lines 44-57: with a stroke present, a non-finite or non-positive width leaves
both radii at the nominal radius; otherwise the outer radius grows by
`(0.5 * w).ceil()` and the inner radius shrinks by `(0.5 * w).floor()`
(clamped at 0).  Without a stroke both radii equal the nominal radius.  A
finite `f32` width is an exact rational; halving it, its floor/ceiling and the
cast to `isize` are exact for the widths concerned here. -/
def derive_radii (r0_pxl : Int) (stroke_width : Option F32) : Int × Int :=
  match stroke_width with
  | some w =>
    match w with
    | F32.nonFinite => (r0_pxl, r0_pxl)
    | F32.val q =>
      if q ≤ 0 then (r0_pxl, r0_pxl)
      else
        let half_out := ⌈(1 / 2 : ℚ) * q⌉
        let half_in := ⌊(1 / 2 : ℚ) * q⌋
        (r0_pxl + half_out, max (r0_pxl - half_in) 0)
  | none => (r0_pxl, r0_pxl)

/-- C2 counterexample: at nominal radius 5 with a stroke of width 1, the
derived radii are `(6, 5)` — outer `r + 1`, inner `r` — not `(5, 5)` as the
claim demands. -/
theorem stroke_width_one_radii_counterexample :
    derive_radii 5 (some (F32.val 1)) ≠ (5, 5) ∧
    derive_radii 5 (some (F32.val 1)) = (6, 5) := by
  have hceil : ⌈(1 / 2 : ℚ) * 1⌉ = 1 := by norm_num [Int.ceil_eq_iff]
  have hfloor : ⌊(1 / 2 : ℚ) * 1⌋ = 0 := by norm_num
  have hval : derive_radii 5 (some (F32.val 1)) = (6, 5) := by
    simp only [derive_radii, hceil, hfloor]
    norm_num
  exact ⟨by rw [hval]; decide, hval⟩

/-- C2 (amended): for a stroke of width exactly 1 and positive nominal pixel
radius `r`, the derived outer radius is `r + 1` (`ceil(1/2) = 1`) and the
derived inner radius is `r` (`floor(1/2) = 0`): the stroke is the one-pixel
ring between the nominal radius and the next one, not an annulus with outer
radius equal to inner radius. -/
theorem stroke_width_one_radii (r0 : Int) (hr : 0 < r0) :
    derive_radii r0 (some (F32.val 1)) = (r0 + 1, r0) := by
  have hceil : ⌈(1 / 2 : ℚ) * 1⌉ = 1 := by norm_num [Int.ceil_eq_iff]
  have hfloor : ⌊(1 / 2 : ℚ) * 1⌋ = 0 := by norm_num
  simp only [derive_radii, hceil, hfloor]
  rw [if_neg (by norm_num)]
  rw [sub_zero, max_eq_left (by omega)]

/-- C2 witness: the amended theorem at nominal radius 5. -/
theorem stroke_width_one_radii_witness :
    (0 : Int) < 5 ∧ derive_radii 5 (some (F32.val 1)) = (5 + 1, 5) :=
  ⟨by decide, stroke_width_one_radii 5 (by decide)⟩

/-- C4 witness: the construction specification evaluated at the degenerate
input (0, 5) — fatal — and at (3, 3), which yields exactly the concrete 3×3
transparent stage. -/
theorem stage_new_spec_witness :
    Stage.new 0 5 = none ∧ Stage.new 3 3 = some st3 :=
  ⟨(stage_new_spec 0 5).1.mpr (Or.inl rfl), by decide⟩

/-- C10 witness: the clipper applied to a concrete segment crossing the 3×3
stage from far outside does not hit a division by zero. -/
theorem clip_line_no_div_by_zero_witness :
    clip_line_to_stage 8 st3 (-7, -9) (11, 13) ≠ ClipRes.divZero :=
  clip_line_no_div_by_zero 8 st3 (-7, -9) (11, 13)
